import Mathlib

/-!
Verification of the ConvoHub specification against the repository.

The repository under verification ships a TypeScript SDK client
(`sdk/typescript/src/client.ts`, `types.ts`), a frontend API client
(`frontend/src/lib/api.ts`) and documentation.  The server-side
branch/merge/diff engine that the spec describes is not part of the
checked-in sources, so it is modelled here directly from the spec's
words (each such definition carries a doc comment starting with
`Modelled from the spec:`).  The SDK and frontend request builders are
translated from the TypeScript sources.
-/

/-- Diff modes, from the SDK enum `DiffMode` in `types.ts`
(`summary`, `messages`, `memory`). -/
inductive DiffMode where
  | summary
  | messages
  | memory
deriving DecidableEq, Repr

/-- String value of a diff mode, as in the SDK enum `DiffMode`. -/
def DiffMode.str : DiffMode → String
  | .summary => "summary"
  | .messages => "messages"
  | .memory => "memory"

namespace Engine

/-- Modelled from the spec: error taxonomy of §7 (`NotFound`,
`InvalidArgument`, `Conflict`, `UpstreamFailure`). -/
inductive Err where
  | notFound
  | invalidArgument
  | conflict
  | upstreamFailure
deriving DecidableEq, Repr

/-- Modelled from the spec: message roles (`system|user|assistant|merge`, §3). -/
inductive Role where
  | system
  | user
  | assistant
  | merge
deriving DecidableEq, Repr

/-- Modelled from the spec: edge types `parent|merge` of a parent edge (§3). -/
inductive EdgeType where
  | parent
  | merge
deriving DecidableEq, Repr

/-- Modelled from the spec: an explicit parent edge owned by a message,
child to parent, carrying the parent message id and the edge type (§3). -/
structure Edge where
  target : Nat
  etype : EdgeType
deriving DecidableEq, Repr

/-- Modelled from the spec: a message DAG node (§3): id, owning branch id,
role, content (the opaque payload is modelled as a string), ordered list of
parent edges. -/
structure Msg where
  id : Nat
  branch : Nat
  role : Role
  content : String
  parents : List Edge
deriving DecidableEq, Repr

/-- Modelled from the spec: a branch record (§3) without its tip, which is
kept in a separate association list of the state so that tip updates leave
the branch registry untouched. -/
structure Branch where
  id : Nat
  thread : Nat
  name : String
  active : Bool
  originBranch : Option Nat
  originMessage : Option Nat
deriving DecidableEq, Repr

/-- Modelled from the spec: a branch-scoped memory fact (§3); `createdAt`
is the id of the message at whose creation the fact was extracted, used
for the ancestry-visibility and the after-LCA test of memory diff (§4.3). -/
structure MemoryFact where
  branch : Nat
  key : String
  value : String
  createdAt : Nat
deriving DecidableEq, Repr

/-- Modelled from the spec: a merge record (§3): thread, source and target
branch ids, strategy, LCA message id (nullable), resulting merge message id
and the idempotency key it was created under. -/
structure MergeRec where
  id : Nat
  thread : Nat
  source : Nat
  target : Nat
  strategy : String
  lca : Option Nat
  mergedMsg : Nat
  key : Option String
deriving DecidableEq, Repr

/-- Modelled from the spec: the engine state: branch registry, branch tips
(association list, most recent entry first), message store, merge records,
the durable append idempotency key mapping of §5, per-branch current
summaries, memory facts and the id counter. -/
structure EngineState where
  branches : List Branch
  tips : List (Nat × Nat)
  messages : List Msg
  merges : List MergeRec
  appendDedup : List (String × Msg)
  summaries : List (Nat × String)
  facts : List MemoryFact
  nextId : Nat
deriving DecidableEq, Repr

/-- Branch lookup by id in the branch registry. -/
def findBranch (s : EngineState) (b : Nat) : Option Branch :=
  s.branches.find? (fun br => br.id == b)

/-- Modelled from the spec: `GetBranchTip` (§4.1); `none` models a null tip. -/
def tipOf (s : EngineState) (b : Nat) : Option Nat :=
  (s.tips.find? (fun p => p.1 == b)).map (fun p => p.2)

/-- Message lookup by id in the message store. -/
def findMsg (s : EngineState) (m : Nat) : Option Msg :=
  s.messages.find? (fun x => x.id == m)

/-- Modelled from the spec: `AppendMessage(branchId, role, content)` (§4.1):
fails with `NotFound` if the branch does not exist or is inactive; creates a
message whose single parent edge targets the branch's current tip (or none
if the tip is null); atomically advances the branch tip to the new message
id.  Summary regeneration and memory extraction are external collaborators
(§6) and are not modelled. -/
def appendMessage (s : EngineState) (b : Nat) (role : Role) (content : String) :
    Except Err (Msg × EngineState) :=
  match findBranch s b with
  | none => .error .notFound
  | some br =>
    if br.active then
      let m : Msg :=
        { id := s.nextId, branch := b, role := role, content := content,
          parents :=
            match tipOf s b with
            | some t => [⟨t, .parent⟩]
            | none => [] }
      .ok (m, { s with messages := m :: s.messages,
                       tips := (b, m.id) :: s.tips,
                       nextId := s.nextId + 1 })
    else .error .notFound

/-- Modelled from the spec: the keyed variant of append (§5): idempotency
keys are deduplicated by checking the durable key-to-result mapping before
mutating; a key hit returns the recorded message without mutating. -/
def appendKeyed (s : EngineState) (b : Nat) (role : Role) (content : String)
    (key : Option String) : Except Err (Msg × EngineState) :=
  match findBranch s b with
  | none => .error .notFound
  | some br =>
    if br.active then
      match key with
      | some k =>
        match s.appendDedup.find? (fun p => p.1 == k) with
        | some p => .ok (p.2, s)
        | none =>
          match appendMessage s b role content with
          | .ok (m, s₁) =>
            .ok (m, { s₁ with appendDedup := (k, m) :: s₁.appendDedup })
          | .error e => .error e
      | none => appendMessage s b role content
    else .error .notFound

/-- Modelled from the spec: the primary lineage step of the ancestry walk
(§4.2): prefer the `parent` edge over a `merge` edge; a parentless message
is a root. -/
def primaryParent (m : Msg) : Option Nat :=
  (m.parents.find? (fun e => e.etype == EdgeType.parent)).map (fun e => e.target)

/-- Modelled from the spec: the backward walk from a tip along primary
parent edges (§4.2), fuelled to make termination structural; the fuel used
by `path` always exceeds the number of stored messages. -/
def walk (s : EngineState) : Nat → Option Nat → List Nat
  | 0, _ => []
  | _ + 1, none => []
  | fuel + 1, some mid =>
    mid ::
      (match findMsg s mid with
       | some m => walk s fuel (primaryParent m)
       | none => [])

/-- Modelled from the spec: the ordered ancestry path of a branch, newest
message first, from the branch tip to the thread origin (§4.2). -/
def ancestry (s : EngineState) (b : Nat) : List Nat :=
  walk s (s.messages.length + 1) (tipOf s b)

/-- Modelled from the spec: `FindLCA(branchA, branchB)` (§4.2): the LCA is
the first message id on A's path that is a member of B's path; each delta is
the portion of that side's path strictly after the LCA, reported oldest
first; with no intersection the LCA is null and each delta is the full path. -/
def findLCA (s : EngineState) (a b : Nat) : Option Nat × List Nat × List Nat :=
  let pa := ancestry s a
  let pb := ancestry s b
  match pa.find? (fun x => pb.contains x) with
  | some l =>
    (some l, (pa.takeWhile (fun x => x != l)).reverse,
             (pb.takeWhile (fun x => x != l)).reverse)
  | none => (none, pa.reverse, pb.reverse)

/-- Modelled from the spec: `Merge(threadId, source, target, strategy, key?)`
(§4.4).  Branch lookups fail with `NotFound`; a branch outside `threadId`
fails with `InvalidArgument`; a key matching an existing merge record for
this (source, target) pair returns that record unchanged with no mutation;
otherwise the engine runs `FindLCA`, creates a merge message on the target
branch with parent edges `[old target tip (type parent), source tip (type
merge)]`, advances the target tip to it and persists a merge record.  Step 4
of §4.4 presumes both tips exist; a null tip is rejected as
`InvalidArgument`.  Summary concatenation and memory union of the
`append-last` strategy act on collaborator-maintained data and are not
modelled. -/
def mergeOp (s : EngineState) (t src tgt : Nat) (strategy : String)
    (key : Option String) : Except Err (MergeRec × EngineState) :=
  match findBranch s src, findBranch s tgt with
  | some bs, some bt =>
    if bs.thread == t && bt.thread == t then
      match (match key with
             | some k => s.merges.find? (fun r =>
                 r.key == some k && r.source == src && r.target == tgt)
             | none => none) with
      | some r => .ok (r, s)
      | none =>
        match tipOf s src, tipOf s tgt with
        | some st, some tt =>
          let lca := (findLCA s src tgt).1
          let mm : Msg :=
            { id := s.nextId, branch := tgt, role := .merge,
              content := strategy,
              parents := [⟨tt, .parent⟩, ⟨st, .merge⟩] }
          let r : MergeRec :=
            { id := s.nextId, thread := t, source := src, target := tgt,
              strategy := strategy, lca := lca, mergedMsg := mm.id,
              key := key }
          .ok (r, { s with messages := mm :: s.messages,
                           tips := (tgt, mm.id) :: s.tips,
                           merges := r :: s.merges,
                           nextId := s.nextId + 1 })
        | _, _ => .error .invalidArgument
    else .error .invalidArgument
  | _, _ => .error .notFound

/-- Modelled from the spec: the structured memory diff classification
(§4.3); the classified facts are reported by key. -/
structure MemoryDiff where
  added : List String
  removed : List String
  modified : List String
  conflicts : List String
deriving DecidableEq, Repr

/-- Modelled from the spec: the summary diff (§4.3): `common_content`,
`left_only`, `right_only` from an LCS-style alignment of the two current
summaries tokenized on whitespace. -/
structure SummaryDiff where
  left_summary : Option String
  right_summary : Option String
  common_content : String
  left_only : String
  right_only : String
deriving DecidableEq, Repr

/-- Modelled from the spec: a contiguous message range of messages mode
diff (§4.3), reported by message ids. -/
structure MessageRange where
  start_id : Option Nat
  end_id : Option Nat
  count : Nat
  messages : List Nat
deriving DecidableEq, Repr

/-- Modelled from the spec: the diff result (§4.3 and the SDK's
`DiffResponse` shape): `lca`, `src_delta`, `tgt_delta` stated on every
result, plus the mode-specific payload. -/
structure DiffResponse where
  lca : Option Nat
  src_delta : List Nat
  tgt_delta : List Nat
  merged_order : List Nat
  mode : DiffMode
  memory_diff : Option MemoryDiff
  summary_diff : Option SummaryDiff
  message_ranges : Option (List MessageRange)
  left_branch_id : Nat
  right_branch_id : Nat
deriving DecidableEq, Repr

/-- Value of the first fact with the given key, first match wins as keys
are unique per branch scope. -/
def lookupFact (fs : List MemoryFact) (k : String) : Option String :=
  (fs.find? (fun f => f.key == k)).map (fun f => f.value)

/-- First fact with the given key. -/
def findFact (fs : List MemoryFact) (k : String) : Option MemoryFact :=
  fs.find? (fun f => f.key == k)

/-- Modelled from the spec: the facts visible from a branch (§4.3):
restricted to keys visible from branch root to tip, i.e. the union across
the ancestry path; a fact is visible when the message it was extracted at
lies on the branch's ancestry path. -/
def visibleFacts (s : EngineState) (b : Nat) : List MemoryFact :=
  s.facts.filter (fun f => (ancestry s b).contains f.createdAt)

/-- Modelled from the spec: memory mode classification (§4.3): `added` (key
present only in right), `removed` (key present only in left), `modified`
(key present in both with different value), `conflicts` (modified keys
where both sides' facts were set after the LCA, i.e. inside the respective
deltas). -/
def memoryDiffM (left right : List MemoryFact) (dl dr : List Nat) : MemoryDiff :=
  let lkeys := left.map (fun f => f.key)
  let rkeys := right.map (fun f => f.key)
  let modified := lkeys.filter (fun k =>
    match lookupFact left k, lookupFact right k with
    | some v, some w => v != w
    | _, _ => false)
  { added := rkeys.filter (fun k => (lookupFact left k).isNone)
    removed := lkeys.filter (fun k => (lookupFact right k).isNone)
    modified := modified
    conflicts := modified.filter (fun k =>
      match findFact left k, findFact right k with
      | some f, some g => dl.contains f.createdAt && dr.contains g.createdAt
      | _, _ => false) }

/-- Length of a longest common subsequence of two token lists, used for
the LCS-style alignment of summary mode (§4.3); fuelled to keep the double
recursion structural, the fuel used by `lcsLen` always suffices. -/
def lcsLenF : Nat → List String → List String → Nat
  | 0, _, _ => 0
  | _ + 1, [], _ => 0
  | _ + 1, _ :: _, [] => 0
  | fuel + 1, a :: l, b :: r =>
    if a = b then lcsLenF fuel l r + 1
    else max (lcsLenF fuel (a :: l) r) (lcsLenF fuel l (b :: r))

/-- Length of a longest common subsequence of two token lists. -/
def lcsLen (l r : List String) : Nat :=
  lcsLenF (l.length + r.length) l r

/-- Modelled from the spec: LCS-style alignment of two token lists into
common, left-only and right-only tokens (§4.3 summary mode); fuelled to
keep the double recursion structural. -/
def tokenDiffF : Nat → List String → List String →
    List String × List String × List String
  | 0, l, r => ([], l, r)
  | _ + 1, [], r => ([], [], r)
  | _ + 1, l@(_ :: _), [] => ([], l, [])
  | fuel + 1, a :: l, b :: r =>
    if a = b then
      let rest := tokenDiffF fuel l r
      (a :: rest.1, rest.2.1, rest.2.2)
    else if lcsLen (a :: l) r ≥ lcsLen l (b :: r) then
      let rest := tokenDiffF fuel (a :: l) r
      (rest.1, rest.2.1, b :: rest.2.2)
    else
      let rest := tokenDiffF fuel l (b :: r)
      (rest.1, a :: rest.2.1, rest.2.2)

/-- LCS-style alignment of two token lists into common, left-only and
right-only tokens. -/
def tokenDiff (l r : List String) : List String × List String × List String :=
  tokenDiffF (l.length + r.length) l r

/-- Helper of `tokenize`: consume the characters, breaking words at each
space, the accumulator holding the current word reversed. -/
def tokenizeAux : List Char → List Char → List String
  | [], acc => [String.mk acc.reverse]
  | c :: cs, acc =>
    if c = ' ' then String.mk acc.reverse :: tokenizeAux cs []
    else tokenizeAux cs (c :: acc)

/-- Whitespace tokenization of a summary, splitting on single spaces with
the same semantics as splitting the string on the space separator. -/
def tokenize (s : String) : List String :=
  tokenizeAux s.data []

/-- Current summary of a branch, the empty string when none is stored. -/
def summaryOf (s : EngineState) (b : Nat) : String :=
  ((s.summaries.find? (fun p => p.1 == b)).map (fun p => p.2)).getD ""

/-- Modelled from the spec: summary mode diff (§4.3): word-level diff of
the two current summaries into `common_content`, `left_only`,
`right_only` on whitespace-tokenized content. -/
def summaryDiffM (l r : String) : SummaryDiff :=
  let d := tokenDiff (tokenize l) (tokenize r)
  { left_summary := some l, right_summary := some r,
    common_content := String.intercalate " " d.1,
    left_only := String.intercalate " " d.2.1,
    right_only := String.intercalate " " d.2.2 }

/-- Modelled from the spec: grouping of a delta into a displayed contiguous
range (§4.3 messages mode). -/
def rangeOf (l : List Nat) : MessageRange :=
  { start_id := l.head?, end_id := l.getLast?, count := l.length, messages := l }

/-- Modelled from the spec: `Diff(left, right, mode)` (§4.3): all three
modes are built from `FindLCA`; every result states `lca`, `src_delta` and
`tgt_delta` regardless of mode; the mode only selects the extra payload.
The spec leaves `merged_order` undescribed; it is filled with the two
deltas in order. -/
def diffEngine (s : EngineState) (l r : Nat) (mode : DiffMode) :
    Except Err DiffResponse :=
  match findBranch s l, findBranch s r with
  | some _, some _ =>
    let res := findLCA s l r
    .ok { lca := res.1
          src_delta := res.2.1
          tgt_delta := res.2.2
          merged_order := res.2.1 ++ res.2.2
          mode := mode
          memory_diff :=
            if mode = .memory then
              some (memoryDiffM (visibleFacts s l) (visibleFacts s r) res.2.1 res.2.2)
            else none
          summary_diff :=
            if mode = .summary then some (summaryDiffM (summaryOf s l) (summaryOf s r))
            else none
          message_ranges :=
            if mode = .messages then some [rangeOf res.2.1, rangeOf res.2.2]
            else none
          left_branch_id := l
          right_branch_id := r }
  | _, _ => .error .notFound

/-- Modelled from the spec: `ListMessages(branch, cursor, limit)` is a pure
read (§6); the opaque-cursor pagination detail is abstracted to taking a
bounded prefix of the branch history, oldest first. -/
def listMessagesE (s : EngineState) (b : Nat) (limit : Nat) : List Nat :=
  ((ancestry s b).reverse).take limit

/-- Operations of the engine boundary (§6), split into the mutating calls
(append, merge) and the read calls (diff, list). -/
inductive Op where
  | appendCall (b : Nat) (role : Role) (content : String) (key : Option String)
  | mergeCall (t src tgt : Nat) (strategy : String) (key : Option String)
  | diffCall (l r : Nat) (mode : DiffMode)
  | listCall (b : Nat) (limit : Nat)
deriving DecidableEq, Repr

/-- Result payload of an engine operation. -/
inductive OpOut where
  | msgOut (m : Msg)
  | mergeOut (r : MergeRec)
  | diffOut (d : DiffResponse)
  | listOut (l : List Nat)
deriving DecidableEq, Repr

/-- Read calls of the boundary: diff and list. -/
def isRead : Op → Bool
  | .diffCall _ _ _ => true
  | .listCall _ _ => true
  | _ => false

/-- Modelled from the spec: one engine step: mutating calls may change the
state, read calls never do (§7: every read is side-effect-free). -/
def runOp (s : EngineState) : Op → Except Err OpOut × EngineState
  | .appendCall b role content key =>
    match appendKeyed s b role content key with
    | .ok (m, s₁) => (.ok (.msgOut m), s₁)
    | .error e => (.error e, s)
  | .mergeCall t src tgt strategy key =>
    match mergeOp s t src tgt strategy key with
    | .ok (r, s₁) => (.ok (.mergeOut r), s₁)
    | .error e => (.error e, s)
  | .diffCall l r mode =>
    (match diffEngine s l r mode with
     | .ok d => .ok (.diffOut d)
     | .error e => .error e, s)
  | .listCall b limit => (.ok (.listOut (listMessagesE s b limit)), s)

end Engine

/-- An HTTP request as assembled by the clients: method, path, query
parameters in insertion order and body fields in insertion order (empty
when the request carries no body). -/
structure Request where
  method : String
  path : String
  params : List (String × String)
  body : List (String × String)
deriving DecidableEq, Repr

/-- First query parameter with the given key. -/
def lookupParam (req : Request) (k : String) : Option String :=
  (req.params.find? (fun p => p.1 == k)).map (fun p => p.2)

/-- First body field with the given key. -/
def lookupBody (req : Request) (k : String) : Option String :=
  (req.body.find? (fun p => p.1 == k)).map (fun p => p.2)

/-- JavaScript string truthiness of an optional string: `undefined` and the
empty string are falsy. -/
def truthy : Option String → Bool
  | none => false
  | some s => s != ""

namespace Sdk

/-- Query building of `ConvoHubClient.makeRequest` (`client.ts`): each
entry is appended to the URL unless its value is `undefined` or `null`
(both modelled as `none`). -/
def buildQuery (ps : List (String × Option String)) : List (String × String) :=
  ps.filterMap (fun p => p.2.map (fun v => (p.1, v)))

/-- Response status acceptance of `makeRequest`: `fetch`'s `response.ok`,
true exactly for statuses 200 through 299. -/
def respOk (status : Nat) : Bool :=
  200 ≤ status && status < 300

/-- Body handling of `ConvoHubClient.makeRequest` (`client.ts`): a non-ok
response throws `Error` with message `HTTP <status>: <statusText>` and no
result is returned; an ok response yields the parsed JSON body. -/
def handleResponse {α : Type} (status : Nat) (statusText : String) (body : α) :
    Except String α :=
  if respOk status then .ok body
  else .error ("HTTP " ++ toString status ++ ": " ++ statusText)

/-- Request of `ConvoHubClient.sendMessage` (`client.ts`): POST to
`/v1/branches/{branchId}/messages` with body `{role, text}` and no query
parameters; the method has no idempotency-key parameter. -/
def sendMessage (branchId role text : String) : Request :=
  { method := "POST"
    path := "/v1/branches/" ++ branchId ++ "/messages"
    params := []
    body := [("role", role), ("text", text)] }

/-- Request of `ConvoHubClient.listMessages` (`client.ts`): GET with a
`limit` parameter always present and a `cursor` parameter added only when
the cursor argument is truthy (JavaScript `if (cursor)`). -/
def listMessages (branchId : String) (cursor : Option String) (limit : Nat) :
    Request :=
  { method := "GET"
    path := "/v1/branches/" ++ branchId ++ "/messages"
    params :=
      [("limit", toString limit)] ++
        (match cursor with
         | some c => if c != "" then [("cursor", c)] else []
         | none => [])
    body := [] }

/-- TypeScript default argument of `listMessages`: `limit` defaults to 50. -/
def listMessagesDefault (branchId : String) (cursor : Option String) : Request :=
  listMessages branchId cursor 50

/-- Request of `ConvoHubClient.merge` (`client.ts`): POST to `/v1/merge`
with the merge request body; the `idempotency_key` query parameter is added
only when the key argument is truthy. -/
def merge (threadId src tgt strategy : String) (key : Option String) : Request :=
  { method := "POST"
    path := "/v1/merge"
    params :=
      match key with
      | some k => if k != "" then [("idempotency_key", k)] else []
      | none => []
    body := [("thread_id", threadId), ("source_branch_id", src),
             ("target_branch_id", tgt), ("strategy", strategy)] }

/-- TypeScript default argument of `merge`: `strategy` defaults to
`append-last`. -/
def mergeDefault (threadId src tgt : String) (key : Option String) : Request :=
  merge threadId src tgt "append-last" key

/-- Request of `ConvoHubClient.diff` (`client.ts`): a single GET to
`/v1/diff` with `left`, `right` and `mode` query parameters. -/
def diff (l r : String) (mode : DiffMode) : Request :=
  { method := "GET"
    path := "/v1/diff"
    params := [("left", l), ("right", r), ("mode", mode.str)]
    body := [] }

/-- SDK `diffMemory` delegates to `diff` with `DiffMode.MEMORY`. -/
def diffMemory (l r : String) : Request :=
  diff l r .memory

/-- SDK `diffSummary` delegates to `diff` with `DiffMode.SUMMARY`. -/
def diffSummary (l r : String) : Request :=
  diff l r .summary

/-- SDK `diffMessages` delegates to `diff` with `DiffMode.MESSAGES`. -/
def diffMessages (l r : String) : Request :=
  diff l r .messages

/-- JavaScript `x || dflt` on an optional string: `undefined`, `null` and
the empty string all fall through to the default. -/
def jsOr (v : Option String) (dflt : String) : String :=
  match v with
  | some s => if s == "" then dflt else s
  | none => dflt

/-- A JSON object payload, modelled as field list. -/
def JsonObj : Type := List (String × String)
deriving instance DecidableEq, Repr for JsonObj

/-- SDK `Merge` model (`types.ts`). -/
structure Merge where
  id : String
  thread_id : String
  source_branch_id : String
  target_branch_id : String
  strategy : String
  lca_message_id : Option String
  merged_into_message_id : Option String
  conflict_resolution : Option JsonObj
  tenant_id : Option String
  created_at : Option String
  updated_at : Option String
deriving DecidableEq, Repr

/-- Argument shape of `ModelFactory.createMerge`: `Partial<Merge>`, every
field optional. -/
structure PartialMerge where
  id : Option String := none
  thread_id : Option String := none
  source_branch_id : Option String := none
  target_branch_id : Option String := none
  strategy : Option String := none
  lca_message_id : Option String := none
  merged_into_message_id : Option String := none
  conflict_resolution : Option JsonObj := none
  tenant_id : Option String := none
  created_at : Option String := none
  updated_at : Option String := none
deriving DecidableEq, Repr

/-- `ModelFactory.createMerge` (`client.ts` models section): string fields
default through JavaScript `||`, in particular `strategy` falls back to
`append-last` when absent. -/
def ModelFactory.createMerge (data : PartialMerge) : Merge :=
  { id := jsOr data.id ""
    thread_id := jsOr data.thread_id ""
    source_branch_id := jsOr data.source_branch_id ""
    target_branch_id := jsOr data.target_branch_id ""
    strategy := jsOr data.strategy "append-last"
    lca_message_id := data.lca_message_id
    merged_into_message_id := data.merged_into_message_id
    conflict_resolution := data.conflict_resolution
    tenant_id := data.tenant_id
    created_at := data.created_at
    updated_at := data.updated_at }

/-- SDK `MemoryDiff` model (`types.ts`). -/
structure MemoryDiff where
  added : List JsonObj
  removed : List JsonObj
  modified : List JsonObj
  conflicts : List JsonObj
deriving DecidableEq, Repr

/-- SDK `SummaryDiff` model (`types.ts`). -/
structure SummaryDiff where
  left_summary : Option String
  right_summary : Option String
  common_content : String
  left_only : String
  right_only : String
deriving DecidableEq, Repr

/-- SDK `MessageRange` model (`types.ts`). -/
structure MessageRange where
  start_id : String
  end_id : String
  count : Nat
  messages : List JsonObj
deriving DecidableEq, Repr

/-- SDK `DiffResponse` model (`types.ts`): `lca`, `src_delta` and
`tgt_delta` are declared on every response whatever the mode. -/
structure DiffResponse where
  lca : Option String
  src_delta : List String
  tgt_delta : List String
  merged_order : List String
  mode : DiffMode
  memory_diff : Option MemoryDiff
  summary_diff : Option SummaryDiff
  message_ranges : Option (List MessageRange)
  left_branch_id : String
  right_branch_id : String
  diff_timestamp : Option String
deriving DecidableEq, Repr

/-- Argument shape of `ModelFactory.createDiffResponse`:
`Partial<DiffResponse>`. -/
structure PartialDiffResponse where
  lca : Option String := none
  src_delta : Option (List String) := none
  tgt_delta : Option (List String) := none
  merged_order : Option (List String) := none
  mode : Option DiffMode := none
  memory_diff : Option MemoryDiff := none
  summary_diff : Option SummaryDiff := none
  message_ranges : Option (List MessageRange) := none
  left_branch_id : Option String := none
  right_branch_id : Option String := none
  diff_timestamp : Option String := none
deriving DecidableEq, Repr

/-- `ModelFactory.createDiffResponse` (`client.ts` models section): the
delta lists default to `[]` through JavaScript `||` (an array is always
truthy, so only an absent field defaults), `mode` defaults to messages,
`lca` passes through. -/
def ModelFactory.createDiffResponse (data : PartialDiffResponse) : DiffResponse :=
  { lca := data.lca
    src_delta := data.src_delta.getD []
    tgt_delta := data.tgt_delta.getD []
    merged_order := data.merged_order.getD []
    mode := data.mode.getD .messages
    memory_diff := data.memory_diff
    summary_diff := data.summary_diff
    message_ranges := data.message_ranges
    left_branch_id := jsOr data.left_branch_id ""
    right_branch_id := jsOr data.right_branch_id ""
    diff_timestamp := data.diff_timestamp }

/-- SDK `Message` model (`types.ts`). -/
structure Message where
  id : String
  branch_id : String
  role : String
  content : JsonObj
  parent_message_id : Option String
  tenant_id : Option String
  created_at : Option String
  updated_at : Option String
deriving DecidableEq, Repr

/-- SDK `ListMessagesResponse` model (`types.ts`): the pagination contract
fields `next_cursor` and `has_more` are part of every response. -/
structure ListMessagesResponse where
  messages : List Message
  next_cursor : Option String
  has_more : Bool
deriving DecidableEq, Repr

end Sdk

namespace Fe

/-- Request of the frontend `ConvoHubAPI.sendMessage` (`api.ts`): POST with
the message body; `const params = idempotencyKey ? {idempotency_key} : {}`
adds the key parameter only when the key argument is truthy. -/
def sendMessage (branchId role text : String) (key : Option String) : Request :=
  { method := "POST"
    path := "/v1/branches/" ++ branchId ++ "/messages"
    params := if truthy key then [("idempotency_key", key.getD "")] else []
    body := [("role", role), ("text", text)] }

/-- Request of the frontend `ConvoHubAPI.merge` (`api.ts`): POST to
`/v1/merge`; `if (request.idempotency_key) params.idempotency_key = ...`
adds the key parameter only when the request's key field is truthy. -/
def merge (threadId src tgt strategy : String) (key : Option String) : Request :=
  { method := "POST"
    path := "/v1/merge"
    params := if truthy key then [("idempotency_key", key.getD "")] else []
    body := [("thread_id", threadId), ("source_branch_id", src),
             ("target_branch_id", tgt), ("strategy", strategy)] }

/-- Request of the frontend `ConvoHubAPI.listMessages` (`api.ts`), same
construction as the SDK's. -/
def listMessages (branchId : String) (cursor : Option String) (limit : Nat) :
    Request :=
  { method := "GET"
    path := "/v1/branches/" ++ branchId ++ "/messages"
    params :=
      [("limit", toString limit)] ++
        (match cursor with
         | some c => if c != "" then [("cursor", c)] else []
         | none => [])
    body := [] }

/-- Request of the frontend `ConvoHubAPI.diff` (`api.ts`): GET `/v1/diff`
with `left`, `right`, `mode`. -/
def diff (l r : String) (mode : DiffMode) : Request :=
  { method := "GET"
    path := "/v1/diff"
    params := [("left", l), ("right", r), ("mode", mode.str)]
    body := [] }

/-- Request of the frontend `ConvoHubAPI.diffMemory` (`api.ts`): GET to the
dedicated `/v1/diff/memory` endpoint, no `mode` parameter. -/
def diffMemory (l r : String) : Request :=
  { method := "GET"
    path := "/v1/diff/memory"
    params := [("left", l), ("right", r)]
    body := [] }

/-- Request of the frontend `ConvoHubAPI.diffSummary` (`api.ts`): GET to
the dedicated `/v1/diff/summary` endpoint, no `mode` parameter. -/
def diffSummary (l r : String) : Request :=
  { method := "GET"
    path := "/v1/diff/summary"
    params := [("left", l), ("right", r)]
    body := [] }

/-- Request of the frontend `ConvoHubAPI.diffMessages` (`api.ts`): GET to
the dedicated `/v1/diff/messages` endpoint, no `mode` parameter. -/
def diffMessages (l r : String) : Request :=
  { method := "GET"
    path := "/v1/diff/messages"
    params := [("left", l), ("right", r)]
    body := [] }

end Fe

/-- Claim C8: the SDK's specialized diff methods `diffMemory`,
`diffSummary` and `diffMessages` issue exactly the request of the general
`diff` method with the corresponding mode — a single GET `/v1/diff`
endpoint carrying a `mode` parameter — whereas the frontend
`ConvoHubAPI`'s specialized methods call the three distinct endpoints
`/v1/diff/memory`, `/v1/diff/summary`, `/v1/diff/messages` without a
`mode` parameter. -/
theorem c8_diff_endpoints (l r : String) :
    Sdk.diffMemory l r = Sdk.diff l r .memory ∧
    Sdk.diffSummary l r = Sdk.diff l r .summary ∧
    Sdk.diffMessages l r = Sdk.diff l r .messages ∧
    (Sdk.diff l r .memory).path = "/v1/diff" ∧
    (Sdk.diff l r .memory).method = "GET" ∧
    lookupParam (Sdk.diff l r .memory) "mode" = some "memory" ∧
    lookupParam (Sdk.diff l r .summary) "mode" = some "summary" ∧
    lookupParam (Sdk.diff l r .messages) "mode" = some "messages" ∧
    (Fe.diffMemory l r).path = "/v1/diff/memory" ∧
    (Fe.diffSummary l r).path = "/v1/diff/summary" ∧
    (Fe.diffMessages l r).path = "/v1/diff/messages" ∧
    lookupParam (Fe.diffMemory l r) "mode" = none ∧
    lookupParam (Fe.diffSummary l r) "mode" = none ∧
    lookupParam (Fe.diffMessages l r) "mode" = none :=
  ⟨rfl, rfl, rfl, rfl, rfl, rfl, rfl, rfl, rfl, rfl, rfl, rfl, rfl, rfl⟩

/-- Claim C9: `ConvoHubClient.makeRequest` throws an `Error` carrying the
numeric HTTP status whenever the response status is outside the 2xx range
and never returns a result there, returns the parsed body exactly when the
status is 2xx, and omits from the URL every query parameter whose value is
`undefined` or `null`. -/
theorem c9_make_request {α : Type} (status : Nat) (statusText : String) (body : α) :
    (¬ (200 ≤ status ∧ status < 300) →
      Sdk.handleResponse status statusText body =
        Except.error ("HTTP " ++ toString status ++ ": " ++ statusText)) ∧
    ((200 ≤ status ∧ status < 300) →
      Sdk.handleResponse status statusText body = Except.ok body) ∧
    (∀ (ps : List (String × Option String)) (k v : String),
      (k, v) ∈ Sdk.buildQuery ps ↔ (k, some v) ∈ ps) := by
  refine ⟨fun h => ?_, fun h => ?_, fun ps k v => ?_⟩
  · have hb : Sdk.respOk status = false := by
      simp only [Sdk.respOk, Bool.and_eq_false_iff, decide_eq_false_iff_not]
      omega
    simp [Sdk.handleResponse, hb]
  · have hb : Sdk.respOk status = true := by
      simp only [Sdk.respOk, Bool.and_eq_true, decide_eq_true_eq]
      omega
    simp [Sdk.handleResponse, hb]
  · constructor
    · intro hmem
      rcases List.mem_filterMap.mp hmem with ⟨⟨k₂, ov⟩, hin, heq⟩
      cases ov with
      | none => simp at heq
      | some w =>
        simp only [Option.map_some'] at heq
        cases heq
        exact hin
    · intro hmem
      exact List.mem_filterMap.mpr ⟨(k, some v), hmem, rfl⟩

/-- Closed instance of claim C9 at status 404 and 200 and a concrete query
list containing a null-valued parameter. -/
theorem c9_witness :
    Sdk.handleResponse 404 "Not Found" "x" =
      Except.error ("HTTP " ++ toString 404 ++ ": " ++ "Not Found") ∧
    Sdk.handleResponse 200 "OK" "x" = Except.ok "x" ∧
    (("a", "1") ∈ Sdk.buildQuery [("a", some "1"), ("b", none)] ↔
      ("a", some "1") ∈ [("a", some "1"), ("b", (none : Option String))]) :=
  ⟨(c9_make_request 404 "Not Found" "x").1 (by decide),
   (c9_make_request 200 "OK" "x").2.1 (by decide),
   (c9_make_request 200 "OK" "x").2.2 [("a", some "1"), ("b", none)] "a" "1"⟩

/-- Claim C10: invoking the SDK `merge` without an explicit strategy sends
the request with strategy `append-last` (the TypeScript default argument),
and `ModelFactory.createMerge` fills in `append-last` for a record whose
strategy field is absent. -/
theorem c10_default_strategy (t s g : String) (key : Option String)
    (d : Sdk.PartialMerge) :
    lookupBody (Sdk.mergeDefault t s g key) "strategy" = some "append-last" ∧
    (d.strategy = none → (Sdk.ModelFactory.createMerge d).strategy = "append-last") := by
  constructor
  · rfl
  · intro h
    simp [Sdk.ModelFactory.createMerge, Sdk.jsOr, h]

/-- Closed instance of claim C10 on an entirely absent partial record. -/
theorem c10_witness :
    lookupBody (Sdk.mergeDefault "t1" "s1" "g1" none) "strategy" = some "append-last" ∧
    (Sdk.ModelFactory.createMerge {}).strategy = "append-last" :=
  ⟨(c10_default_strategy "t1" "s1" "g1" none {}).1,
   (c10_default_strategy "t1" "s1" "g1" none {}).2 rfl⟩

/-- Claim C7 as stated is refuted at the explicit input `cursor = some ""`:
the cursor argument is supplied, yet the built request carries no `cursor`
parameter, because the JavaScript truthiness test `if (cursor)` treats the
empty string as absent. -/
theorem c7_counterexample :
    (some "" : Option String) ≠ none ∧
    lookupParam (Sdk.listMessages "b1" (some "") 50) "cursor" = none :=
  ⟨by simp, rfl⟩

/-- Claim C7, amended: every `listMessages` request carries a `limit`
parameter (defaulting to 50), carries a `cursor` parameter exactly when a
non-empty cursor is supplied (an empty-string cursor is treated as
absent), and every `ListMessagesResponse` carries the pagination fields
`has_more` and `next_cursor`. -/
theorem c7_list_messages (b : String) (cursor : Option String) (limit : Nat) :
    lookupParam (Sdk.listMessages b cursor limit) "limit" = some (toString limit) ∧
    Sdk.listMessagesDefault b cursor = Sdk.listMessages b cursor 50 ∧
    (∀ c, cursor = some c → c ≠ "" →
      lookupParam (Sdk.listMessages b cursor limit) "cursor" = some c) ∧
    (cursor = none ∨ cursor = some "" →
      lookupParam (Sdk.listMessages b cursor limit) "cursor" = none) ∧
    (∀ resp : Sdk.ListMessagesResponse,
      resp = { messages := resp.messages, next_cursor := resp.next_cursor,
               has_more := resp.has_more }) := by
  refine ⟨rfl, rfl, ?_, ?_, fun resp => rfl⟩
  · rintro c rfl hc
    have hb : (c != "") = true := by simpa [bne_iff_ne] using hc
    simp [Sdk.listMessages, lookupParam, hb,
          show ("limit" == "cursor") = false from rfl]
  · rintro (rfl | rfl) <;> rfl

namespace Demo

/-- Root branch of the demonstration state. -/
def b1 : Engine.Branch := ⟨1, 0, "main", true, none, none⟩

/-- Second branch of the demonstration state. -/
def b2 : Engine.Branch := ⟨2, 0, "feature", true, none, none⟩

/-- Deactivated branch of the demonstration state. -/
def b3 : Engine.Branch := ⟨3, 0, "closed", false, none, none⟩

/-- Tip message of branch 1. -/
def m10 : Engine.Msg := ⟨10, 1, .user, "hello", []⟩

/-- Tip message of branch 2. -/
def m11 : Engine.Msg := ⟨11, 2, .user, "world", []⟩

/-- Demonstration engine state: one thread, two active branches with one
message each, one inactive branch. -/
def S0 : Engine.EngineState :=
  ⟨[b1, b2, b3], [(1, 10), (2, 11)], [m10, m11], [], [], [], [], 12⟩

/-- Message created by appending to branch 1 of `S0`. -/
def mA : Engine.Msg := ⟨12, 1, .user, "hi", [⟨10, .parent⟩]⟩

/-- State after appending `mA` to branch 1 of `S0`. -/
def S0a : Engine.EngineState :=
  ⟨[b1, b2, b3], [(1, 12), (1, 10), (2, 11)], [mA, m10, m11], [], [], [], [], 13⟩

/-- State after the keyed append of `mA` under key `ka`. -/
def S0k : Engine.EngineState :=
  ⟨[b1, b2, b3], [(1, 12), (1, 10), (2, 11)], [mA, m10, m11], [], [("ka", mA)],
   [], [], 13⟩

/-- Merge message created by merging branch 1 into branch 2 of `S0`. -/
def mM : Engine.Msg := ⟨12, 2, .merge, "append-last", [⟨11, .parent⟩, ⟨10, .merge⟩]⟩

/-- Merge record of merging branch 1 into branch 2 of `S0` under key `k1`. -/
def R1 : Engine.MergeRec := ⟨12, 0, 1, 2, "append-last", none, 12, some "k1"⟩

/-- State after merging branch 1 into branch 2 of `S0` under key `k1`. -/
def S1 : Engine.EngineState :=
  ⟨[b1, b2, b3], [(2, 12), (1, 10), (2, 11)], [mM, m10, m11], [R1], [], [], [], 13⟩

/-- Diff response of diffing branch 1 against branch 2 of `S0` in memory
mode. -/
def D12 : Engine.DiffResponse :=
  ⟨none, [10], [11], [10, 11], .memory, some ⟨[], [], [], []⟩, none, none, 1, 2⟩

/-- Diff response of diffing branch 1 against itself in summary mode. -/
def D11 : Engine.DiffResponse :=
  ⟨some 10, [], [], [], .summary, none, some ⟨some "", some "", "", "", ""⟩, none, 1, 1⟩

end Demo

/-- Closed instance of claim C7 at a non-empty and an absent cursor. -/
theorem c7_witness :
    lookupParam (Sdk.listMessages "b1" (some "abc") 50) "cursor" = some "abc" ∧
    lookupParam (Sdk.listMessages "b1" none 50) "cursor" = none :=
  ⟨(c7_list_messages "b1" (some "abc") 50).2.2.1 "abc" rfl (by simp),
   (c7_list_messages "b1" none 50).2.2.2.1 (Or.inl rfl)⟩

/-- Claim C4: `AppendMessage` fails with `NotFound` when the branch does
not exist or is inactive; on an existing active branch it succeeds,
returns the created message with the requested branch, role and content,
and atomically advances the branch tip to the new message's id. -/
theorem c4_append_message (s : Engine.EngineState) (b : Nat) (role : Engine.Role)
    (content : String) :
    (Engine.findBranch s b = none →
      Engine.appendMessage s b role content = Except.error Engine.Err.notFound) ∧
    (∀ br, Engine.findBranch s b = some br → br.active = false →
      Engine.appendMessage s b role content = Except.error Engine.Err.notFound) ∧
    (∀ br, Engine.findBranch s b = some br → br.active = true →
      ∀ m s₁, Engine.appendMessage s b role content = Except.ok (m, s₁) →
        m.id = s.nextId ∧ m.branch = b ∧ m.role = role ∧ m.content = content ∧
        m ∈ s₁.messages ∧ Engine.tipOf s₁ b = some m.id) ∧
    (∀ br, Engine.findBranch s b = some br → br.active = true →
      (Engine.appendMessage s b role content).isOk = true) := by
  refine ⟨fun h => ?_, fun br hbr hact => ?_, fun br hbr hact m s₁ h => ?_,
          fun br hbr hact => ?_⟩
  · simp [Engine.appendMessage, h]
  · simp [Engine.appendMessage, hbr, hact]
  · simp only [Engine.appendMessage, hbr, hact, if_true] at h
    rw [Except.ok.injEq, Prod.mk.injEq] at h
    obtain ⟨hm, hs⟩ := h
    subst hm
    subst hs
    refine ⟨rfl, rfl, rfl, rfl, List.mem_cons_self _ _, ?_⟩
    simp [Engine.tipOf, List.find?]
  · simp only [Engine.appendMessage, hbr, hact, if_true]
    rfl

/-- Closed instance of claim C4: a missing branch, an inactive branch and a
successful append on the demonstration state. -/
theorem c4_witness :
    Engine.appendMessage Demo.S0 99 Engine.Role.user "hi" =
      Except.error Engine.Err.notFound ∧
    Engine.appendMessage Demo.S0 3 Engine.Role.user "hi" =
      Except.error Engine.Err.notFound ∧
    (Engine.appendMessage Demo.S0 1 Engine.Role.user "hi").isOk = true ∧
    (Demo.mA.id = Demo.S0.nextId ∧ Demo.mA.branch = 1 ∧
      Demo.mA.role = Engine.Role.user ∧ Demo.mA.content = "hi" ∧
      Demo.mA ∈ Demo.S0a.messages ∧ Engine.tipOf Demo.S0a 1 = some Demo.mA.id) :=
  ⟨(c4_append_message Demo.S0 99 .user "hi").1 rfl,
   (c4_append_message Demo.S0 3 .user "hi").2.1 Demo.b3 rfl rfl,
   (c4_append_message Demo.S0 1 .user "hi").2.2.2 Demo.b1 rfl rfl,
   (c4_append_message Demo.S0 1 .user "hi").2.2.1 Demo.b1 rfl rfl Demo.mA Demo.S0a rfl⟩

/-- Claim C2: every successful diff result, in every mode, carries `lca`,
`src_delta` and `tgt_delta` as produced by `FindLCA`, independently of the
requested mode; and the SDK's `createDiffResponse` always materialises the
`lca`, `src_delta` and `tgt_delta` fields, defaulting the deltas to `[]`. -/
theorem c2_diff_provenance (s : Engine.EngineState) (l r : Nat) (mode : DiffMode) :
    (∀ resp, Engine.diffEngine s l r mode = Except.ok resp →
      resp.lca = (Engine.findLCA s l r).1 ∧
      resp.src_delta = (Engine.findLCA s l r).2.1 ∧
      resp.tgt_delta = (Engine.findLCA s l r).2.2) ∧
    (∀ d : Sdk.PartialDiffResponse,
      (Sdk.ModelFactory.createDiffResponse d).lca = d.lca ∧
      (Sdk.ModelFactory.createDiffResponse d).src_delta = d.src_delta.getD [] ∧
      (Sdk.ModelFactory.createDiffResponse d).tgt_delta = d.tgt_delta.getD []) := by
  constructor
  · intro resp h
    cases hl : Engine.findBranch s l with
    | none =>
      rw [Engine.diffEngine, hl] at h
      exact Except.noConfusion h
    | some bl =>
      cases hr : Engine.findBranch s r with
      | none =>
        rw [Engine.diffEngine, hl, hr] at h
        exact Except.noConfusion h
      | some br =>
        rw [Engine.diffEngine, hl, hr] at h
        rw [Except.ok.injEq] at h
        subst h
        exact ⟨rfl, rfl, rfl⟩
  · intro d
    exact ⟨rfl, rfl, rfl⟩

/-- Closed instance of claim C2: a concrete memory-mode diff on the
demonstration state and the factory on an empty partial record. -/
theorem c2_witness :
    Engine.diffEngine Demo.S0 1 2 DiffMode.memory = Except.ok Demo.D12 ∧
    (Demo.D12.lca = (Engine.findLCA Demo.S0 1 2).1 ∧
      Demo.D12.src_delta = (Engine.findLCA Demo.S0 1 2).2.1 ∧
      Demo.D12.tgt_delta = (Engine.findLCA Demo.S0 1 2).2.2) ∧
    (Sdk.ModelFactory.createDiffResponse {}).src_delta = [] :=
  ⟨rfl, (c2_diff_provenance Demo.S0 1 2 .memory).1 Demo.D12 rfl,
   ((c2_diff_provenance Demo.S0 1 2 .memory).2 {}).2.1⟩

/-- Retrying a keyed merge against the state it produced returns the same
record and the same state: the key is found in the durable merge records
before any mutation. -/
lemma mergeRetry (s : Engine.EngineState) (t src tgt : Nat) (strat k : String)
    (r : Engine.MergeRec) (s₁ : Engine.EngineState)
    (h : Engine.mergeOp s t src tgt strat (some k) = Except.ok (r, s₁)) :
    Engine.mergeOp s₁ t src tgt strat (some k) = Except.ok (r, s₁) := by
  cases hsrc : Engine.findBranch s src with
  | none => simp [Engine.mergeOp, hsrc] at h
  | some bs =>
    cases htgt : Engine.findBranch s tgt with
    | none => simp [Engine.mergeOp, hsrc, htgt] at h
    | some bt =>
      simp only [Engine.mergeOp, hsrc, htgt] at h
      by_cases hth : (bs.thread == t && bt.thread == t) = true
      · rw [if_pos hth] at h
        cases hded : s.merges.find? (fun x =>
            x.key == some k && x.source == src && x.target == tgt) with
        | some r₀ =>
          simp only [hded] at h
          rw [Except.ok.injEq, Prod.mk.injEq] at h
          obtain ⟨hr, hs⟩ := h
          subst hr
          subst hs
          simp [Engine.mergeOp, hsrc, htgt, hth, hded]
        | none =>
          simp only [hded] at h
          cases hst : Engine.tipOf s src with
          | none => simp [hst] at h
          | some st =>
            cases htt : Engine.tipOf s tgt with
            | none => simp [hst, htt] at h
            | some tt =>
              simp only [hst, htt] at h
              rw [Except.ok.injEq, Prod.mk.injEq] at h
              obtain ⟨hr, hs⟩ := h
              subst hr
              subst hs
              have hsrcL : List.find? (fun br => br.id == src) s.branches = some bs := hsrc
              have htgtL : List.find? (fun br => br.id == tgt) s.branches = some bt := htgt
              simp [Engine.mergeOp, Engine.findBranch, hsrcL, htgtL, hth, List.find?]
      · rw [if_neg hth] at h
        exact Except.noConfusion h

/-- Retrying a keyed append against the state it produced returns the same
message and the same state: the key is found in the durable append
deduplication mapping before any mutation. -/
lemma appendRetry (s : Engine.EngineState) (b : Nat) (role : Engine.Role)
    (content : String) (k : String) (m : Engine.Msg) (s₁ : Engine.EngineState)
    (h : Engine.appendKeyed s b role content (some k) = Except.ok (m, s₁)) :
    Engine.appendKeyed s₁ b role content (some k) = Except.ok (m, s₁) := by
  cases hbr : Engine.findBranch s b with
  | none => simp [Engine.appendKeyed, hbr] at h
  | some br =>
    simp only [Engine.appendKeyed, hbr] at h
    by_cases hact : br.active = true
    · rw [if_pos hact] at h
      cases hded : s.appendDedup.find? (fun p => p.1 == k) with
      | some p =>
        simp only [hded] at h
        rw [Except.ok.injEq, Prod.mk.injEq] at h
        obtain ⟨hm, hs⟩ := h
        subst hm
        subst hs
        simp [Engine.appendKeyed, hbr, hact, hded]
      | none =>
        simp only [hded, Engine.appendMessage, hbr, hact, if_true] at h
        rw [Except.ok.injEq, Prod.mk.injEq] at h
        obtain ⟨hm, hs⟩ := h
        subst hm
        subst hs
        have hbrL : List.find? (fun x => x.id == b) s.branches = some br := hbr
        simp [Engine.appendKeyed, Engine.findBranch, hbrL, hact, List.find?]
    · rw [if_neg hact] at h
      exact Except.noConfusion h

/-- Claim C1: merging with an idempotency key is idempotent: after a merge
with key `k` succeeded, invoking `Merge` again with the same thread, source
branch, target branch and key returns the identical merge record, leaves
the state unchanged, creates no second merge message and does not advance
the target branch tip a second time. -/
theorem c1_merge_idempotent (s : Engine.EngineState) (t src tgt : Nat)
    (strat k : String) (r : Engine.MergeRec) (s₁ : Engine.EngineState)
    (h : Engine.mergeOp s t src tgt strat (some k) = Except.ok (r, s₁)) :
    Engine.mergeOp s₁ t src tgt strat (some k) = Except.ok (r, s₁) ∧
    (Engine.runOp s₁ (.mergeCall t src tgt strat (some k))).2 = s₁ ∧
    ((Engine.runOp s₁ (.mergeCall t src tgt strat (some k))).2).messages.length =
      s₁.messages.length ∧
    Engine.tipOf ((Engine.runOp s₁ (.mergeCall t src tgt strat (some k))).2) tgt =
      Engine.tipOf s₁ tgt := by
  have h₂ := mergeRetry s t src tgt strat k r s₁ h
  have hrun : (Engine.runOp s₁ (.mergeCall t src tgt strat (some k))).2 = s₁ := by
    simp [Engine.runOp, h₂]
  exact ⟨h₂, hrun, by rw [hrun], by rw [hrun]⟩

/-- Closed instance of claim C1: a concrete merge on the demonstration
state, replayed with the same key. -/
theorem c1_witness :
    Engine.mergeOp Demo.S0 0 1 2 "append-last" (some "k1") =
      Except.ok (Demo.R1, Demo.S1) ∧
    Engine.mergeOp Demo.S1 0 1 2 "append-last" (some "k1") =
      Except.ok (Demo.R1, Demo.S1) ∧
    (Engine.runOp Demo.S1 (.mergeCall 0 1 2 "append-last" (some "k1"))).2 = Demo.S1 :=
  ⟨rfl,
   (c1_merge_idempotent Demo.S0 0 1 2 "append-last" "k1" Demo.R1 Demo.S1 rfl).1,
   (c1_merge_idempotent Demo.S0 0 1 2 "append-last" "k1" Demo.R1 Demo.S1 rfl).2.1⟩

/-- Claim C6: the mutating calls, append and merge, accept an idempotency
key and retrying one against the state it produced returns the identical
result and state; every read call leaves the engine state unchanged; and
the clients attach the `idempotency_key` parameter to append and merge
requests whenever a non-empty key is supplied. -/
theorem c6_retry_safety :
    (∀ (s : Engine.EngineState) (op : Engine.Op),
      Engine.isRead op = true → (Engine.runOp s op).2 = s) ∧
    (∀ (s : Engine.EngineState) (b : Nat) (role : Engine.Role) (content k : String)
        (m : Engine.Msg) (s₁ : Engine.EngineState),
      Engine.appendKeyed s b role content (some k) = Except.ok (m, s₁) →
      Engine.appendKeyed s₁ b role content (some k) = Except.ok (m, s₁)) ∧
    (∀ (s : Engine.EngineState) (t src tgt : Nat) (strat k : String)
        (r : Engine.MergeRec) (s₁ : Engine.EngineState),
      Engine.mergeOp s t src tgt strat (some k) = Except.ok (r, s₁) →
      Engine.mergeOp s₁ t src tgt strat (some k) = Except.ok (r, s₁)) ∧
    (∀ b role text k, k ≠ "" →
      lookupParam (Fe.sendMessage b role text (some k)) "idempotency_key" = some k) ∧
    (∀ t src tgt strat k, k ≠ "" →
      lookupParam (Fe.merge t src tgt strat (some k)) "idempotency_key" = some k ∧
      lookupParam (Sdk.merge t src tgt strat (some k)) "idempotency_key" = some k) := by
  refine ⟨fun s op hop => ?_,
          fun s b role content k m s₁ h => appendRetry s b role content k m s₁ h,
          fun s t src tgt strat k r s₁ h => mergeRetry s t src tgt strat k r s₁ h,
          fun b role text k hk => ?_, fun t src tgt strat k hk => ?_⟩
  · cases op with
    | appendCall b role content key => simp [Engine.isRead] at hop
    | mergeCall t src tgt strategy key => simp [Engine.isRead] at hop
    | diffCall l r mode => rfl
    | listCall b limit => rfl
  · have hb : truthy (some k) = true := by simpa [truthy, bne_iff_ne] using hk
    simp [Fe.sendMessage, lookupParam, hb]
  · have hb : truthy (some k) = true := by simpa [truthy, bne_iff_ne] using hk
    have hbk : (k != "") = true := by simpa [bne_iff_ne] using hk
    constructor
    · simp [Fe.merge, lookupParam, hb]
    · simp [Sdk.merge, lookupParam, hbk]

/-- Closed instance of claim C6: a concrete read, a replayed keyed append,
a replayed keyed merge and the key-carrying client requests. -/
theorem c6_witness :
    (Engine.runOp Demo.S0 (.diffCall 1 2 DiffMode.messages)).2 = Demo.S0 ∧
    Engine.appendKeyed Demo.S0k 1 Engine.Role.user "hi" (some "ka") =
      Except.ok (Demo.mA, Demo.S0k) ∧
    Engine.mergeOp Demo.S1 0 1 2 "append-last" (some "k1") =
      Except.ok (Demo.R1, Demo.S1) ∧
    lookupParam (Fe.sendMessage "b" "user" "hello" (some "kk")) "idempotency_key" =
      some "kk" ∧
    lookupParam (Fe.merge "t" "s" "g" "append-last" (some "kk")) "idempotency_key" =
      some "kk" ∧
    lookupParam (Sdk.merge "t" "s" "g" "append-last" (some "kk")) "idempotency_key" =
      some "kk" :=
  ⟨c6_retry_safety.1 Demo.S0 (.diffCall 1 2 DiffMode.messages) rfl,
   c6_retry_safety.2.1 Demo.S0 1 .user "hi" "ka" Demo.mA Demo.S0k rfl,
   c6_retry_safety.2.2.1 Demo.S0 0 1 2 "append-last" "k1" Demo.R1 Demo.S1 rfl,
   c6_retry_safety.2.2.2.1 "b" "user" "hello" "kk" (by decide),
   (c6_retry_safety.2.2.2.2 "t" "s" "g" "append-last" "kk" (by decide)).1,
   (c6_retry_safety.2.2.2.2 "t" "s" "g" "append-last" "kk" (by decide)).2⟩

namespace Demo

/-- Merge record of the keyless merge of branch 1 into branch 2 of `S0`. -/
def R0 : Engine.MergeRec := ⟨12, 0, 1, 2, "append-last", none, 12, none⟩

/-- State after the keyless merge of branch 1 into branch 2 of `S0`. -/
def S2 : Engine.EngineState :=
  ⟨[b1, b2, b3], [(2, 12), (1, 10), (2, 11)], [mM, m10, m11], [R0], [], [], [], 13⟩

end Demo

/-- Claim C3 as stated is refuted at an explicit concrete merge: the
created merge message has two parent edges, but they are not both of edge
type `merge` — the first edge, to the old target tip, has edge type
`parent` (spec §4.4 step 4), contradicting the reading that a merge
message has exactly two parent edges of edge type `merge`. -/
theorem c3_counterexample :
    Engine.mergeOp Demo.S0 0 1 2 "append-last" none = Except.ok (Demo.R0, Demo.S2) ∧
    Engine.findMsg Demo.S2 Demo.R0.mergedMsg = some Demo.mM ∧
    Demo.mM.role = Engine.Role.merge ∧
    Demo.mM.parents =
      [⟨11, Engine.EdgeType.parent⟩, ⟨10, Engine.EdgeType.merge⟩] ∧
    Engine.EdgeType.parent ≠ Engine.EdgeType.merge :=
  ⟨rfl, rfl, rfl, rfl, by decide⟩

/-- Claim C3, amended: a message created by a normal append has exactly one
parent edge of type `parent` targeting the branch's previous tip (none when
the tip was null); a merge message has exactly two parent edges — the old
target tip with edge type `parent` and the source tip with edge type
`merge`. -/
theorem c3_parent_edges :
    (∀ (s : Engine.EngineState) (b : Nat) (role : Engine.Role) (content : String)
        (m : Engine.Msg) (s₁ : Engine.EngineState),
      Engine.appendMessage s b role content = Except.ok (m, s₁) →
      m.parents = (match Engine.tipOf s b with
                   | some t => [⟨t, Engine.EdgeType.parent⟩]
                   | none => [])) ∧
    (∀ (s : Engine.EngineState) (t src tgt : Nat) (strat : String)
        (key : Option String) (r : Engine.MergeRec) (s₁ : Engine.EngineState),
      Engine.mergeOp s t src tgt strat key = Except.ok (r, s₁) →
      s₁ = s ∨
      (∀ st tt, Engine.tipOf s src = some st → Engine.tipOf s tgt = some tt →
        Engine.findMsg s₁ r.mergedMsg = some
          { id := r.mergedMsg, branch := tgt, role := Engine.Role.merge,
            content := strat,
            parents := [⟨tt, Engine.EdgeType.parent⟩,
                        ⟨st, Engine.EdgeType.merge⟩] })) := by
  constructor
  · intro s b role content m s₁ h
    cases hbr : Engine.findBranch s b with
    | none => simp [Engine.appendMessage, hbr] at h
    | some br =>
      simp only [Engine.appendMessage, hbr] at h
      by_cases hact : br.active = true
      · rw [if_pos hact] at h
        rw [Except.ok.injEq, Prod.mk.injEq] at h
        obtain ⟨hm, hs⟩ := h
        subst hm
        rfl
      · rw [if_neg hact] at h
        exact Except.noConfusion h
  · intro s t src tgt strat key r s₁ h
    cases hsrc : Engine.findBranch s src with
    | none => simp [Engine.mergeOp, hsrc] at h
    | some bs =>
      cases htgt : Engine.findBranch s tgt with
      | none => simp [Engine.mergeOp, hsrc, htgt] at h
      | some bt =>
        simp only [Engine.mergeOp, hsrc, htgt] at h
        by_cases hth : (bs.thread == t && bt.thread == t) = true
        · rw [if_pos hth] at h
          cases hkey :
              (match key with
               | some k => s.merges.find? (fun (x : Engine.MergeRec) =>
                   x.key == some k && x.source == src && x.target == tgt)
               | none => none) with
          | some r₀ =>
            rw [hkey] at h
            rw [Except.ok.injEq, Prod.mk.injEq] at h
            exact Or.inl h.2.symm
          | none =>
            rw [hkey] at h
            cases hst : Engine.tipOf s src with
            | none => simp [hst] at h
            | some st =>
              cases htt : Engine.tipOf s tgt with
              | none => simp [hst, htt] at h
              | some tt =>
                simp only [hst, htt] at h
                rw [Except.ok.injEq, Prod.mk.injEq] at h
                obtain ⟨hr, hs⟩ := h
                subst hr
                subst hs
                refine Or.inr ?_
                intro st₀ tt₀ hst₀ htt₀
                cases hst₀
                cases htt₀
                simp [Engine.findMsg, List.find?]
        · rw [if_neg hth] at h
          exact Except.noConfusion h

/-- Closed instance of claim C3: the append and the merge on the
demonstration state, with the created messages' parent edges evaluated. -/
theorem c3_witness :
    Demo.mA.parents = [⟨10, Engine.EdgeType.parent⟩] ∧
    Engine.findMsg Demo.S1 Demo.R1.mergedMsg = some Demo.mM := by
  constructor
  · exact c3_parent_edges.1 Demo.S0 1 .user "hi" Demo.mA Demo.S0a rfl
  · have h := (c3_parent_edges.2 Demo.S0 0 1 2 "append-last" (some "k1")
      Demo.R1 Demo.S1 rfl).resolve_left (by decide)
    exact h 10 11 rfl rfl

/-- Unfolding of one step of the ancestry walk at a present tip. -/
lemma walk_cons (s : Engine.EngineState) (n : Nat) (mid : Nat) :
    Engine.walk s (n + 1) (some mid) =
      mid :: (match Engine.findMsg s mid with
              | some m => Engine.walk s n (Engine.primaryParent m)
              | none => []) := rfl

/-- Diffing a branch against itself finds the tip as LCA and two empty
deltas. -/
lemma findLCA_self (s : Engine.EngineState) (b : Nat) :
    Engine.findLCA s b b = (Engine.tipOf s b, [], []) := by
  simp only [Engine.findLCA, Engine.ancestry]
  cases ht : Engine.tipOf s b with
  | none => simp [Engine.walk]
  | some tp =>
    rw [walk_cons]
    generalize (match Engine.findMsg s tp with
                | some m => Engine.walk s s.messages.length (Engine.primaryParent m)
                | none => []) = L
    have hfind : List.find? (fun x => (tp :: L).contains x) (tp :: L) = some tp := by
      simp [List.find?]
    rw [hfind]
    simp [List.takeWhile_cons, bne_self_eq_false]

/-- A key occurring among a fact list's keys is found by `lookupFact`. -/
lemma lookupFact_of_mem (k : String) :
    ∀ (fs : List Engine.MemoryFact), k ∈ fs.map Engine.MemoryFact.key →
      (Engine.lookupFact fs k).isNone = false := by
  intro fs
  induction fs with
  | nil => intro h; simp at h
  | cons f fs ih =>
    intro h
    rw [List.map_cons, List.mem_cons] at h
    by_cases hk : (f.key == k) = true
    · simp [Engine.lookupFact, List.find?, hk]
    · rw [Bool.not_eq_true] at hk
      rcases h with h | h
      · subst h
        simp at hk
      · simp only [Engine.lookupFact, List.find?, hk]
        exact ih h

/-- The memory diff of a fact set against itself classifies nothing. -/
lemma memoryDiff_self (fs : List Engine.MemoryFact) (dl dr : List Nat) :
    Engine.memoryDiffM fs fs dl dr = ⟨[], [], [], []⟩ := by
  have hmod : (fs.map Engine.MemoryFact.key).filter (fun k =>
      match Engine.lookupFact fs k, Engine.lookupFact fs k with
      | some v, some w => v != w
      | _, _ => false) = [] := by
    rw [List.filter_eq_nil_iff]
    intro k hk
    cases hv : Engine.lookupFact fs k <;> simp [hv]
  have hnone : ∀ k ∈ fs.map Engine.MemoryFact.key,
      ¬((Engine.lookupFact fs k).isNone = true) := by
    intro k hk
    rw [lookupFact_of_mem k fs hk]
    simp
  simp only [Engine.memoryDiffM, Engine.MemoryDiff.mk.injEq]
  refine ⟨?_, ?_, hmod, ?_⟩
  · rw [List.filter_eq_nil_iff]
    exact hnone
  · rw [List.filter_eq_nil_iff]
    exact hnone
  · rw [hmod]
    rfl

/-- The fuelled LCS alignment of a token list against itself marks every
token common, given sufficient fuel. -/
lemma tokenDiffF_self : ∀ (fuel : Nat) (xs : List String), xs.length ≤ fuel →
    Engine.tokenDiffF fuel xs xs = (xs, [], []) := by
  intro fuel
  induction fuel with
  | zero =>
    intro xs h
    cases xs with
    | nil => rfl
    | cons a l => simp at h
  | succ n ih =>
    intro xs h
    cases xs with
    | nil => rfl
    | cons a l =>
      have hl : l.length ≤ n := by
        simp only [List.length_cons] at h
        omega
      simp [Engine.tokenDiffF, ih l hl]

/-- The LCS alignment of a token list against itself marks every token
common. -/
lemma tokenDiff_self (xs : List String) : Engine.tokenDiff xs xs = (xs, [], []) :=
  tokenDiffF_self (xs.length + xs.length) xs (by omega)

/-- The summary diff of a summary against itself has no left-only tokens. -/
lemma summaryDiff_left_self (x : String) :
    (Engine.summaryDiffM x x).left_only = "" := by
  simp [Engine.summaryDiffM, tokenDiff_self]
  rfl

/-- The summary diff of a summary against itself has no right-only tokens. -/
lemma summaryDiff_right_self (x : String) :
    (Engine.summaryDiffM x x).right_only = "" := by
  simp [Engine.summaryDiffM, tokenDiff_self]
  rfl

/-- Claim C5: diffing a branch against itself returns `lca` equal to the
branch tip, empty source and target deltas, an empty memory diff in memory
mode, and a summary diff with empty `left_only` and `right_only` in
summary mode. -/
theorem c5_self_diff (s : Engine.EngineState) (b : Nat) (mode : DiffMode)
    (resp : Engine.DiffResponse)
    (h : Engine.diffEngine s b b mode = Except.ok resp) :
    resp.lca = Engine.tipOf s b ∧ resp.src_delta = [] ∧ resp.tgt_delta = [] ∧
    (mode = DiffMode.memory → resp.memory_diff = some ⟨[], [], [], []⟩) ∧
    (mode = DiffMode.summary →
      resp.summary_diff.map Engine.SummaryDiff.left_only = some "" ∧
      resp.summary_diff.map Engine.SummaryDiff.right_only = some "") := by
  cases hb : Engine.findBranch s b with
  | none =>
    rw [Engine.diffEngine, hb] at h
    exact Except.noConfusion h
  | some br =>
    simp only [Engine.diffEngine, hb] at h
    rw [Except.ok.injEq] at h
    subst h
    refine ⟨?_, ?_, ?_, fun hm => ?_, fun hsm => ?_⟩
    · simp [findLCA_self]
    · simp [findLCA_self]
    · simp [findLCA_self]
    · subst hm
      simp [findLCA_self, memoryDiff_self]
    · subst hsm
      simp [findLCA_self, summaryDiff_left_self, summaryDiff_right_self]

/-- Closed instance of claim C5: branch 1 of the demonstration state
diffed against itself in summary mode. -/
theorem c5_witness :
    Engine.diffEngine Demo.S0 1 1 DiffMode.summary = Except.ok Demo.D11 ∧
    Demo.D11.lca = Engine.tipOf Demo.S0 1 ∧
    Demo.D11.src_delta = [] ∧ Demo.D11.tgt_delta = [] ∧
    Demo.D11.summary_diff.map Engine.SummaryDiff.left_only = some "" ∧
    Demo.D11.summary_diff.map Engine.SummaryDiff.right_only = some "" := by
  have h := c5_self_diff Demo.S0 1 DiffMode.summary Demo.D11 rfl
  exact ⟨rfl, h.1, h.2.1, h.2.2.1, (h.2.2.2.2 rfl).1, (h.2.2.2.2 rfl).2⟩
